import Mathlib

/-!
Shallow embedding of the web client of the file-manager
(src/web/src/api/client.ts, src/web/src/api/types.ts, src/web/src/App.tsx,
src/web/src/components/Toolbar.tsx). Pure request-building and
response-handling logic is translated into executable Lean definitions;
the network itself is abstracted into the HTTP status, status text and
parsed body that a response carries.
-/

namespace WebFileManager

/-- HTTP methods used by the client. -/
inductive Method
  | GET
  | POST
  | PATCH
  | DELETE
deriving DecidableEq, Repr

/-- WHATWG fetch semantics: Response.ok is true exactly when the status is
in the range 200 to 299 inclusive. -/
def responseOk (status : Nat) : Bool :=
  200 ≤ status && status ≤ 299

/-- Outcome of running response.json() on an error body: either the body is
not parseable JSON (the .catch branch of client.ts runs), or it is JSON
whose detail field is present or absent. -/
inductive ErrorBody
  | notJson
  | json (detail : Option String)
deriving DecidableEq, Repr

/-- Error message computed by request in client.ts: when the body fails to
parse, the catch substitutes an object whose detail is response.statusText,
so the thrown message is the statusText; when the body is JSON, the message
is its detail field, with the literal fallback used when detail is absent. -/
def requestErrorMessage (statusText : String) (body : ErrorBody) : String :=
  match body with
  | .notJson => statusText
  | .json detail => detail.getD "Request failed"

/-- request in client.ts: resolves with the parsed success body when
response.ok holds, otherwise throws an Error with the computed message. -/
def requestOutcome {T : Type} (status : Nat) (statusText : String)
    (body : ErrorBody) (successValue : T) : Except String T :=
  if responseOk status then .ok successValue
  else .error (requestErrorMessage statusText body)

/-- deletePath in client.ts awaits request on DELETE /api/files and discards
the success body. -/
def deletePathResult (status : Nat) (statusText : String)
    (body : ErrorBody) : Except String Unit :=
  requestOutcome status statusText body ()

/-- Error message computed by the inline error branch of uploadFiles in
client.ts; identical to requestErrorMessage except for its fallback text. -/
def uploadErrorMessage (statusText : String) (body : ErrorBody) : String :=
  match body with
  | .notJson => statusText
  | .json detail => detail.getD "Upload failed"

/-- Success body of POST /api/files/upload as typed in client.ts. -/
structure UploadSuccessBody where
  uploaded : List String
deriving DecidableEq, Repr

/-- uploadFiles in client.ts after the fetch: on response.ok it returns
data.uploaded, otherwise it throws with the computed message. -/
def uploadFilesResult (status : Nat) (statusText : String) (errBody : ErrorBody)
    (successBody : UploadSuccessBody) : Except String (List String) :=
  if responseOk status then .ok successBody.uploaded
  else .error (uploadErrorMessage statusText errBody)

/-- A request as the client assembles it: method, URL path, query-string
parameters, and optional JSON body given as ordered key-value fields. -/
structure ApiCall where
  method : Method
  url : String
  query : List (String × String)
  jsonBody : Option (List (String × String))
deriving DecidableEq, Repr

/-- getDirectory in client.ts: GET /api/files; the path query parameter is
set only when the path string is truthy, i.e. non-empty. -/
def getDirectoryCall (path : String) : ApiCall :=
  ⟨Method.GET, "/api/files",
    (if path = "" then [] else [("path", path)]), none⟩

/-- renamePath in client.ts: PATCH /api/files/rename with a JSON body built
by JSON.stringify on an object with exactly current_path and new_path. -/
def renamePathCall (current_path new_path : String) : ApiCall :=
  ⟨Method.PATCH, "/api/files/rename", [],
    some [("current_path", current_path), ("new_path", new_path)]⟩

/-- createFolder in client.ts: POST /api/files/folder with JSON body
holding parent and name. -/
def createFolderCall (parent name : String) : ApiCall :=
  ⟨Method.POST, "/api/files/folder", [],
    some [("parent", parent), ("name", name)]⟩

/-- deletePath in client.ts: DELETE /api/files with the path always present
in the query string. -/
def deletePathCall (path : String) : ApiCall :=
  ⟨Method.DELETE, "/api/files", [("path", path)], none⟩

/-- Accumulator loop of JavaScript String.prototype.split with a single-char
separator: walk the characters, cutting a new segment at each separator. -/
def splitAux (sep : Char) : List Char → List Char → List String
  | [], acc => [String.mk acc.reverse]
  | c :: rest, acc =>
    if c = sep then String.mk acc.reverse :: splitAux sep rest []
    else splitAux sep rest (c :: acc)

/-- JavaScript String.prototype.split(sep) for a one-character separator:
the empty string yields a single empty segment, and adjacent separators
yield empty segments, exactly as in the browser. -/
def jsSplit (sep : Char) (s : String) : List String :=
  splitAux sep s.data []

/-- path.split("/").filter(Boolean) as the client writes it: the segments of
a path with every empty segment discarded (Boolean is falsy only on the
empty string here). -/
def pathSegments (p : String) : List String :=
  (jsSplit '/' p).filter fun s => decide (s ≠ "")

/-- JavaScript Array.prototype.join("/"): empty array joins to the empty
string, otherwise the elements separated by single slashes. -/
def joinSep : List String → String
  | [] => ""
  | [s] => s
  | s :: t :: rest => s ++ "/" ++ joinSep (t :: rest)

/-- Parent path computed by handleRename in App.tsx: split on "/", drop
empty segments, pop the last segment, join the rest with "/". -/
def parentOf (itemPath : String) : String :=
  joinSep (pathSegments itemPath).dropLast

/-- The idiom [a, b].filter(Boolean).join("/") used for the rename target:
drop the empty strings, join the remainder with "/". -/
def filterJoin (parts : List String) : String :=
  joinSep (parts.filter fun s => decide (s ≠ ""))

/-- Target path built by handleRename in App.tsx from the item's path and
the prompted new name. -/
def renameTarget (itemPath newName : String) : String :=
  filterJoin [parentOf itemPath, newName]

/-- FileItem as declared in api/types.ts. -/
structure FileItem where
  name : String
  path : String
  is_dir : Bool
  size : Nat
  modified : String
  mime_type : Option String
deriving DecidableEq, Repr

/-- handleRename in App.tsx: window.prompt returns null (modelled none) or a
string; the handler returns without any request when the prompt is cancelled,
empty, or equal to the item's current name, and otherwise issues
renamePath(item.path, targetPath). -/
def renameRequest (item : FileItem) (promptResult : Option String) :
    Option ApiCall :=
  match promptResult with
  | none => none
  | some newName =>
    if newName = "" ∨ newName = item.name then none
    else some (renamePathCall item.path (renameTarget item.path newName))

/-- handleCreateFolder in App.tsx: no request when the prompt is cancelled
or empty, otherwise createFolder(currentPath, name) with the prompted name
passed through verbatim. -/
def createFolderRequest (currentPath : String) (promptResult : Option String) :
    Option ApiCall :=
  match promptResult with
  | none => none
  | some name =>
    if name = "" then none else some (createFolderCall currentPath name)

/-- DirectoryListing as declared in api/types.ts. -/
structure DirectoryListing where
  path : String
  parent : Option String
  items : List FileItem
deriving DecidableEq, Repr

/-- Modelled from the spec: the server-side DirectoryIndexer is not part of
src/; per the spec it computes parent as the resolved parent virtual path,
or null at root, and empty input resolves to the root itself. -/
def listingParent (path : String) : Option String :=
  if path = "" then none else some (parentOf path)

/-- A listing as the server produces it for a given path, with its parent
field filled in by the modelled DirectoryIndexer. -/
def serverListing (path : String) (items : List FileItem) : DirectoryListing :=
  ⟨path, listingParent path, items⟩

/-- App.tsx passes isRoot as the negation of the truthiness of currentPath,
and Toolbar.tsx disables the Up One Level button exactly on that flag. -/
def upDisabled (currentPath : String) : Bool :=
  currentPath == ""

/-- goUp in App.tsx: refresh(listing?.parent ?? ""), so a missing listing or
a null parent both navigate to the empty (root) path. -/
def goUpTarget (listing : Option DirectoryListing) : String :=
  match listing with
  | none => ""
  | some l => l.parent.getD ""

/-- crumbs in App.tsx: currentPath ? currentPath.split("/").filter(Boolean)
: []. -/
def crumbs (currentPath : String) : List String :=
  if currentPath = "" then [] else pathSegments currentPath

/-- Clicking the crumb at a given index navigates to
crumbs.slice(0, index + 1).join("/") per App.tsx. -/
def breadcrumbTarget (currentPath : String) (index : Nat) : String :=
  joinSep ((crumbs currentPath).take (index + 1))

/-- The Root button in App.tsx navigates to the empty path. -/
def rootButtonTarget : String := ""

/-- Multipart form values: a file part or a plain text field. Files are
identified abstractly by a string. -/
inductive FormValue
  | filePart (f : String)
  | textPart (s : String)
deriving DecidableEq, Repr

/-- A FileList as the DOM hands it over: an ordered collection of files;
Array.from enumerates exactly its items in order. -/
structure FileList where
  files : List String
deriving DecidableEq, Repr

/-- The two runtime shapes uploadFiles accepts for its files argument. -/
inductive FilesInput
  | fromFileList (fl : FileList)
  | fromArray (fs : List String)
deriving DecidableEq, Repr

/-- Array.from on a FileList. -/
def arrayFrom (fl : FileList) : List String :=
  fl.files

/-- FormData assembled by uploadFiles in client.ts: the instanceof branch
converts a FileList via Array.from and appends each file under "files",
the other branch appends each array element under "files"; both then
append the destination field once, after all file parts. -/
def uploadFormEntries (path : String) (input : FilesInput) :
    List (String × FormValue) :=
  match input with
  | .fromFileList fl =>
    ((arrayFrom fl).map fun f => ("files", FormValue.filePart f)) ++
      [("destination", FormValue.textPart path)]
  | .fromArray fs =>
    (fs.map fun f => ("files", FormValue.filePart f)) ++
      [("destination", FormValue.textPart path)]

/-- The full upload request: POST /api/files/upload with the assembled
multipart body. -/
def uploadCall (path : String) (input : FilesInput) :
    Method × String × List (String × FormValue) :=
  (Method.POST, "/api/files/upload", uploadFormEntries path input)

/-- A single well-formed path segment in the sense of the spec's
VirtualPath invariant: non-empty, not "." or "..", and containing no "/"
separator. -/
def validName (s : String) : Bool :=
  s != "" && s != "." && s != ".." && !(s.data.contains '/')

/-! Helper lemmas about strings, joins and segments. -/

theorem length_pos_of_ne_empty {s : String} (h : s ≠ "") : 0 < s.length := by
  cases s with
  | mk data =>
    cases data with
    | nil => exact absurd rfl h
    | cons c cs => simp [String.length]

theorem append_ne_empty_left {s t : String} (h : s ≠ "") : s ++ t ≠ "" := by
  intro he
  have h1 : (s ++ t).length = 0 := by rw [he]; rfl
  have h2 := length_pos_of_ne_empty h
  rw [String.length_append] at h1
  omega

theorem joinSep_cons_cons (s t : String) (rest : List String) :
    joinSep (s :: t :: rest) = s ++ "/" ++ joinSep (t :: rest) := rfl

theorem joinSep_cons_ne_empty {s : String} (rest : List String) (h : s ≠ "") :
    joinSep (s :: rest) ≠ "" := by
  cases rest with
  | nil => simpa [joinSep] using h
  | cons t ts =>
    rw [joinSep_cons_cons]
    exact append_ne_empty_left (append_ne_empty_left h)

theorem joinSep_eq_empty_iff {l : List String} (h : ∀ s ∈ l, s ≠ "") :
    joinSep l = "" ↔ l = [] := by
  cases l with
  | nil => simp [joinSep]
  | cons s rest =>
    constructor
    · intro he
      exact absurd he (joinSep_cons_ne_empty rest (h s (List.mem_cons_self s rest)))
    · intro h'
      cases h'

theorem joinSep_append_single (l : List String) (x : String) :
    joinSep (l ++ [x]) = if l = [] then x else joinSep l ++ "/" ++ x := by
  induction l with
  | nil => simp [joinSep]
  | cons s rest ih =>
    cases rest with
    | nil => simp [joinSep]
    | cons t ts =>
      simp only [List.cons_append, joinSep_cons_cons]
      rw [← List.cons_append, ih]
      simp [String.append_assoc]

theorem ne_empty_of_mem_pathSegments {p s : String} (h : s ∈ pathSegments p) :
    s ≠ "" := by
  have := List.of_mem_filter h
  simpa using this

theorem renameTarget_eq_join {itemPath newName : String} (h : newName ≠ "") :
    renameTarget itemPath newName
      = joinSep ((pathSegments itemPath).dropLast ++ [newName]) := by
  have hl : ∀ s ∈ (pathSegments itemPath).dropLast, s ≠ "" := fun s hs =>
    ne_empty_of_mem_pathSegments (List.dropLast_subset _ hs)
  unfold renameTarget filterJoin parentOf
  by_cases h0 : (pathSegments itemPath).dropLast = []
  · rw [h0]
    simp [joinSep, h]
  · have hp : joinSep (pathSegments itemPath).dropLast ≠ "" := by
      rw [Ne, joinSep_eq_empty_iff hl]
      exact h0
    rw [joinSep_append_single, if_neg h0]
    simp [List.filter, hp, h, joinSep]

theorem responseOk_iff (status : Nat) :
    responseOk status = true ↔ 200 ≤ status ∧ status ≤ 299 := by
  simp [responseOk]

/-! Claim theorems. -/

/-- C1: evaluating the embedded client at a 207 Multi-Status response to a
delete request: Response.ok is true for 207 because it lies in 200 to 299,
so the shared request helper resolves and deletePath completes successfully
instead of rejecting — the partial-delete failure is silently treated as
success. -/
theorem c1_deletePath_resolves_on_207 :
    responseOk 207 = true ∧
    deletePathResult 207 "Multi-Status"
      (ErrorBody.json (some "some entries could not be deleted"))
        = Except.ok () :=
  ⟨by decide, rfl⟩

/-- C2: for every API operation, a response status outside 200 to 299 makes
the operation fail, with message equal to the JSON error body's detail
field when the body is JSON carrying one, and the response statusText when
the body is not parseable JSON; this holds both for the shared request
helper (list, create-folder, rename, delete) and for uploadFiles' inline
error handler. -/
theorem c2_error_propagation (status : Nat) (statusText d : String)
    (h : ¬ (200 ≤ status ∧ status ≤ 299)) :
    (∀ (T : Type) (v : T),
      requestOutcome status statusText (ErrorBody.json (some d)) v
          = Except.error d ∧
      requestOutcome status statusText ErrorBody.notJson v
          = Except.error statusText) ∧
    (∀ b : UploadSuccessBody,
      uploadFilesResult status statusText (ErrorBody.json (some d)) b
          = Except.error d ∧
      uploadFilesResult status statusText ErrorBody.notJson b
          = Except.error statusText) := by
  have hok : responseOk status = false := by
    by_contra hb
    exact h ((responseOk_iff status).1 (by simpa using hb))
  refine ⟨fun T v => ⟨?_, ?_⟩, fun b => ⟨?_, ?_⟩⟩ <;>
    simp [requestOutcome, uploadFilesResult, hok, requestErrorMessage,
      uploadErrorMessage]

/-- Witness for C2 at a concrete 404 response. -/
theorem c2_error_propagation_witness :
    ¬ (200 ≤ 404 ∧ 404 ≤ 299) ∧
    requestOutcome 404 "Not Found" (ErrorBody.json (some "Path not found")) ()
        = Except.error "Path not found" :=
  ⟨by decide,
    ((c2_error_propagation 404 "Not Found" "Path not found" (by decide)).1
      Unit ()).1⟩

/-- C3 as stated is false: the client applies no sanitization to prompted
names, so prompting ".." as a rename target name makes the client submit a
path containing a ".." segment, and the create-folder handler submits the
raw name ".." verbatim. -/
theorem c3_counterexample_dotdot_submitted :
    renameRequest ⟨"file.txt", "docs/file.txt", false, 0, "", none⟩ (some "..")
        = some (renamePathCall "docs/file.txt" "docs/..") ∧
    ".." ∈ pathSegments "docs/.." ∧
    createFolderRequest "" (some "..") = some (createFolderCall "" "..") :=
  ⟨by decide, by decide, by decide⟩

/-- C3 amended: the client submits prompted names verbatim and performs no
segment validation itself — it only suppresses empty or unchanged prompts;
when the prompted name is a single well-formed segment (non-empty, not "."
or "..", no separator) and the item's existing path segments are
well-formed, the rename target the client builds is the join of well-formed
segments only, and the create-folder request submits exactly that name. -/
theorem c3_amended_valid_prompt_valid_path (itemPath newName parentPath : String)
    (h1 : validName newName = true)
    (h2 : ∀ s ∈ pathSegments itemPath, validName s = true) :
    renameTarget itemPath newName
        = joinSep ((pathSegments itemPath).dropLast ++ [newName]) ∧
    (∀ s ∈ (pathSegments itemPath).dropLast ++ [newName],
        validName s = true) ∧
    createFolderRequest parentPath (some newName)
        = some (createFolderCall parentPath newName) := by
  have hne : newName ≠ "" := by
    intro he
    rw [he] at h1
    simp [validName] at h1
  refine ⟨renameTarget_eq_join hne, ?_, ?_⟩
  · intro s hs
    rcases List.mem_append.1 hs with hs | hs
    · exact h2 s (List.dropLast_subset _ hs)
    · rw [List.mem_singleton.1 hs]
      exact h1
  · simp [createFolderRequest, hne]

/-- Witness for the amended C3 at a concrete valid rename. -/
theorem c3_amended_witness :
    (validName "notes.txt" = true ∧
      ∀ s ∈ pathSegments "docs/report.txt", validName s = true) ∧
    renameTarget "docs/report.txt" "notes.txt"
        = joinSep ((pathSegments "docs/report.txt").dropLast ++ ["notes.txt"]) :=
  ⟨⟨by decide, by decide⟩,
    (c3_amended_valid_prompt_valid_path "docs/report.txt" "notes.txt" ""
      (by decide) (by decide)).1⟩

theorem filter_files_entries (files : List String) (path : String) :
    (((files.map fun f => ("files", FormValue.filePart f)) ++
        [("destination", FormValue.textPart path)]).filter
        fun e => e.1 == "files")
      = files.map fun f => ("files", FormValue.filePart f) := by
  induction files with
  | nil => rfl
  | cons f fs ih =>
    simp only [List.map_cons, List.cons_append, List.filter_cons]
    simp [ih]

theorem filter_destination_entries (files : List String) (path : String) :
    (((files.map fun f => ("files", FormValue.filePart f)) ++
        [("destination", FormValue.textPart path)]).filter
        fun e => e.1 == "destination")
      = [("destination", FormValue.textPart path)] := by
  induction files with
  | nil => rfl
  | cons f fs ih =>
    simp only [List.map_cons, List.cons_append, List.filter_cons]
    simp [ih]

/-- C4: uploadFiles sends POST /api/files/upload whose multipart body has
exactly one part per file — all under the field name "files", in order —
plus exactly one destination field carrying the target directory path,
appended after the file parts; on a success status the call returns exactly
the response body's uploaded array. -/
theorem c4_upload_request_shape (path : String) (files : List String)
    (status : Nat) (statusText : String) (errBody : ErrorBody)
    (body : UploadSuccessBody) :
    (uploadCall path (FilesInput.fromArray files)).1 = Method.POST ∧
    (uploadCall path (FilesInput.fromArray files)).2.1 = "/api/files/upload" ∧
    uploadFormEntries path (FilesInput.fromArray files)
        = (files.map fun f => ("files", FormValue.filePart f)) ++
            [("destination", FormValue.textPart path)] ∧
    ((uploadFormEntries path (FilesInput.fromArray files)).filter
        fun e => e.1 == "files")
        = (files.map fun f => ("files", FormValue.filePart f)) ∧
    ((uploadFormEntries path (FilesInput.fromArray files)).filter
        fun e => e.1 == "destination")
        = [("destination", FormValue.textPart path)] ∧
    (responseOk status = true →
      uploadFilesResult status statusText errBody body
          = Except.ok body.uploaded) := by
  refine ⟨rfl, rfl, rfl, ?_, ?_, ?_⟩
  · exact filter_files_entries files path
  · exact filter_destination_entries files path
  · intro hok
    simp [uploadFilesResult, hok]

/-- Witness for C4 at a concrete successful upload. -/
theorem c4_upload_witness :
    responseOk 200 = true ∧
    uploadFilesResult 200 "OK" ErrorBody.notJson ⟨["a.txt", "b.txt"]⟩
        = Except.ok ["a.txt", "b.txt"] :=
  ⟨by decide,
    (c4_upload_request_shape "docs" ["a.txt", "b.txt"] 200 "OK"
      ErrorBody.notJson ⟨["a.txt", "b.txt"]⟩).2.2.2.2.2 (by decide)⟩

/-- C5: getDirectory issues GET /api/files with the path as the path query
parameter, and the parameter is omitted exactly when the path is empty, so
the empty path denotes the root. -/
theorem c5_getDirectory_query (path : String) :
    (getDirectoryCall path).method = Method.GET ∧
    (getDirectoryCall path).url = "/api/files" ∧
    (getDirectoryCall path).query
        = (if path = "" then [] else [("path", path)]) ∧
    ((getDirectoryCall path).query = [] ↔ path = "") := by
  refine ⟨rfl, rfl, rfl, ?_⟩
  by_cases h : path = "" <;> simp [getDirectoryCall, h]

/-- C6: renamePath issues PATCH /api/files/rename with a JSON body of
exactly the two fields current_path and new_path holding the source and
destination virtual paths. -/
theorem c6_renamePath_body (current_path new_path : String) :
    renamePathCall current_path new_path
        = ⟨Method.PATCH, "/api/files/rename", [],
            some [("current_path", current_path), ("new_path", new_path)]⟩ :=
  rfl

/-- C7: a DirectoryListing carries its path, a nullable parent and an
ordered items sequence; with the parent computed by the spec-modelled
DirectoryIndexer, parent is null exactly at the empty (root) path; the Up
One Level button is disabled exactly at the root, and otherwise goUp
navigates to the listing's parent. -/
theorem c7_parent_null_iff_root (path : String) (items : List FileItem) :
    ((serverListing path items).parent = none ↔ path = "") ∧
    ((serverListing path items).items = items) ∧
    (upDisabled path = true ↔ path = "") ∧
    (path ≠ "" →
      (serverListing path items).parent = some (parentOf path) ∧
      goUpTarget (some (serverListing path items)) = parentOf path) := by
  refine ⟨?_, rfl, ?_, ?_⟩
  · by_cases h : path = "" <;> simp [serverListing, listingParent, h]
  · simp [upDisabled]
  · intro h
    simp [serverListing, listingParent, goUpTarget, h]

/-- Witness for C7 at a concrete non-root listing. -/
theorem c7_witness :
    ("docs/sub" ≠ "") ∧
    (serverListing "docs/sub" []).parent = some (parentOf "docs/sub") ∧
    goUpTarget (some (serverListing "docs/sub" [])) = parentOf "docs/sub" :=
  ⟨by decide, (c7_parent_null_iff_root "docs/sub" []).2.2.2 (by decide)⟩

/-- C8: the UI rename preserves the item's parent directory — the target
path sent to the server is the slash-join of the item's parent segments
followed by the new name — and no request at all is issued when the prompt
is cancelled, empty, or equal to the item's current name. -/
theorem c8_rename_preserves_parent (item : FileItem) (newName : String)
    (h1 : newName ≠ "") (h2 : newName ≠ item.name) :
    renameRequest item none = none ∧
    renameRequest item (some "") = none ∧
    renameRequest item (some item.name) = none ∧
    renameRequest item (some newName)
        = some (renamePathCall item.path
            (joinSep ((pathSegments item.path).dropLast ++ [newName]))) := by
  refine ⟨rfl, by simp [renameRequest], by simp [renameRequest], ?_⟩
  simp [renameRequest, h1, h2, renameTarget_eq_join h1]

/-- Witness for C8 at a concrete rename in a subdirectory. -/
theorem c8_rename_witness :
    ("b.txt" ≠ "" ∧ "b.txt" ≠ "a.txt") ∧
    renameRequest ⟨"a.txt", "docs/a.txt", false, 0, "", none⟩ (some "b.txt")
        = some (renamePathCall "docs/a.txt"
            (joinSep ((pathSegments "docs/a.txt").dropLast ++ ["b.txt"]))) :=
  ⟨⟨by decide, by decide⟩,
    (c8_rename_preserves_parent ⟨"a.txt", "docs/a.txt", false, 0, "", none⟩
      "b.txt" (by decide) (by decide)).2.2.2⟩

/-- C9: uploadFiles builds the identical multipart body from a FileList and
from a File array holding the same files: each file appears exactly once
under "files" in the original order, and the destination field is appended
exactly once, after all file parts. -/
theorem c9_fileList_array_equivalence (path : String) (fs : List String) :
    uploadFormEntries path (FilesInput.fromFileList ⟨fs⟩)
        = uploadFormEntries path (FilesInput.fromArray fs) ∧
    uploadFormEntries path (FilesInput.fromFileList ⟨fs⟩)
        = (fs.map fun f => ("files", FormValue.filePart f)) ++
            [("destination", FormValue.textPart path)] :=
  ⟨rfl, rfl⟩

/-- C10: clicking the crumb at index i navigates to the slash-join of the
first i+1 segments of the current path, whose segment list is an ancestor
(a list prefix) of the current path's segments, and the Root button always
navigates to the empty path. -/
theorem c10_breadcrumb_ancestor (currentPath : String) (i : Nat)
    (_h : i < (crumbs currentPath).length) :
    breadcrumbTarget currentPath i
        = joinSep ((pathSegments currentPath).take (i + 1)) ∧
    (pathSegments currentPath).take (i + 1) ++
        (pathSegments currentPath).drop (i + 1) = pathSegments currentPath ∧
    rootButtonTarget = "" := by
  have hc : crumbs currentPath = pathSegments currentPath := by
    by_cases hp : currentPath = ""
    · rw [hp]
      rfl
    · simp [crumbs, hp]
  exact ⟨by rw [breadcrumbTarget, hc], List.take_append_drop _ _, rfl⟩

/-- Witness for C10 at a concrete three-segment path and index 1. -/
theorem c10_breadcrumb_witness :
    (1 < (crumbs "a/b/c").length) ∧
    breadcrumbTarget "a/b/c" 1 = joinSep ((pathSegments "a/b/c").take 2) :=
  ⟨by decide, (c10_breadcrumb_ancestor "a/b/c" 1 (by decide)).1⟩

end WebFileManager
